/-
Verification of the core predicate combinator library (predicates-rs).

The development shallowly embeds the library's data model:

* `Pred Item` models the `Predicate<Item>` capability together with the
  `fmt::Display` rendering (`describe`) that each concrete predicate
  provides; the trait itself only carries `eval`.
* Strings (`&str`) are modelled as lists of unicode scalar values
  (`List Char`); for valid UTF-8 this is a faithful view of Rust's
  byte-for-byte string operations, since UTF-8 is self-synchronizing.
* Byte slices (`&[u8]`) and platform strings (`OsStr` on Unix) are
  modelled as lists of byte values (`List Nat`, each entry < 256 where it
  matters; the decoder rejects anything ≥ 0x80 that does not fit the
  UTF-8 table, so larger entries are simply invalid input).
-/
import Mathlib

set_option maxHeartbeats 1000000

namespace Predicates

/-- Strings (`&str`) as lists of unicode scalar values. -/
abbrev Str := List Char

/-- The `Predicate<Item>` capability (`fn eval(&self, item: Item) -> bool`)
bundled with the predicate's `fmt::Display` rendering, which the library
uses as the human-readable description. -/
structure Pred (Item : Type) where
  eval : Item → Bool
  describe : String

/-! ## boolean.rs — logical combinators -/

/-- `AndPredicate` (src/boolean.rs): holds two inner predicates `a` and `b`. -/
structure AndPredicate (Item : Type) where
  a : Pred Item
  b : Pred Item

/-- `AndPredicate::new(a, b)` (src/boolean.rs). -/
def AndPredicate.new {Item : Type} (a b : Pred Item) : AndPredicate Item :=
  ⟨a, b⟩

/-- `AndPredicate::eval`: `self.a.eval(item) && self.b.eval(item)`
(src/boolean.rs lines 52-54). -/
def AndPredicate.eval {Item : Type} (p : AndPredicate Item) (item : Item) : Bool :=
  p.a.eval item && p.b.eval item

/-- `OrPredicate` (src/boolean.rs): holds two inner predicates `a` and `b`. -/
structure OrPredicate (Item : Type) where
  a : Pred Item
  b : Pred Item

/-- `OrPredicate::new(a, b)` (src/boolean.rs). -/
def OrPredicate.new {Item : Type} (a b : Pred Item) : OrPredicate Item :=
  ⟨a, b⟩

/-- `OrPredicate::eval`: `self.a.eval(item) || self.b.eval(item)`
(src/boolean.rs lines 94-96). -/
def OrPredicate.eval {Item : Type} (p : OrPredicate Item) (item : Item) : Bool :=
  p.a.eval item || p.b.eval item

/-- `NotPredicate` (src/boolean.rs): holds one inner predicate. -/
structure NotPredicate (Item : Type) where
  inner : Pred Item

/-- `NotPredicate::new(inner)` (src/boolean.rs). -/
def NotPredicate.new {Item : Type} (inner : Pred Item) : NotPredicate Item :=
  ⟨inner⟩

/-- `NotPredicate::eval`: `!self.inner.eval(item)` (src/boolean.rs lines 126-134). -/
def NotPredicate.eval {Item : Type} (p : NotPredicate Item) (item : Item) : Bool :=
  !p.inner.eval item

/-! ### Instrumented semantics for short-circuit order

To make evaluation order observable we enrich the capability: an
instrumented predicate returns, besides its boolean result, the ordered
list of (names of) predicates whose `eval` was invoked.  The combinator
evaluators below embed the very same source expressions
`self.a.eval(item) && self.b.eval(item)` and
`self.a.eval(item) || self.b.eval(item)` under Rust's language semantics
for `&&`/`||`: the right operand is evaluated only when the left one does
not already determine the result. -/

/-- An instrumented predicate: evaluation yields the trace of invoked
predicates (in invocation order) together with the boolean result. -/
def TPred (Item : Type) := Item → List String × Bool

/-- Instrumented embedding of `AndPredicate::eval`'s body
`self.a.eval(item) && self.b.eval(item)` (src/boolean.rs lines 52-54):
`b` is invoked only when `a` returned true. -/
def andEvalTrace {Item : Type} (a b : TPred Item) (item : Item) : List String × Bool :=
  let ra := a item
  if ra.2 then
    let rb := b item
    (ra.1 ++ rb.1, rb.2)
  else
    (ra.1, false)

/-- Instrumented embedding of `OrPredicate::eval`'s body
`self.a.eval(item) || self.b.eval(item)` (src/boolean.rs lines 94-96):
`b` is invoked only when `a` returned false. -/
def orEvalTrace {Item : Type} (a b : TPred Item) (item : Item) : List String × Bool :=
  let ra := a item
  if ra.2 then
    (ra.1, true)
  else
    let rb := b item
    (ra.1 ++ rb.1, rb.2)

/-! ## boxed.rs — type-erasing wrapper -/

/-- `BoxPredicate<Item>` (src/boxed.rs): a `Box<Predicate<Item> + Send + Sync>`.
The trait object retains only the `Predicate` capability, i.e. the `eval`
function; the inner predicate's `fmt::Display` is erased (the trait does not
require `Display`).  The `Send + Sync + 'static` bounds on construction are
type-level sharability requirements with no runtime content, so they do not
appear in the model. -/
structure BoxPredicate (Item : Type) where
  inner : Item → Bool

/-- `BoxPredicate::new(inner)` (src/boxed.rs lines 27-32): boxes the inner
predicate, keeping its `eval` behind the erased handle. -/
def BoxPredicate.new {Item : Type} (p : Pred Item) : BoxPredicate Item :=
  ⟨p.eval⟩

/-- `BoxPredicate::eval`: `self.0.eval(variable)` (src/boxed.rs lines 52-59). -/
def BoxPredicate.eval {Item : Type} (b : BoxPredicate Item) (v : Item) : Bool :=
  b.inner v

/-- `impl fmt::Display for BoxPredicate` (src/boxed.rs lines 43-50):
`write!(f, "BoxPredicate")` — a constant string, independent of the inner
predicate. -/
def BoxPredicate.describe {Item : Type} (_ : BoxPredicate Item) : String :=
  "BoxPredicate"

/-! ## name.rs — naming wrapper -/

/-- `NamePredicate` (src/name.rs): an inner predicate plus a static label. -/
structure NamePredicate (Item : Type) where
  inner : Pred Item
  name : String

/-- `NamePredicate::eval`: `self.inner.eval(item)` (src/name.rs lines 29-36). -/
def NamePredicate.eval {Item : Type} (p : NamePredicate Item) (item : Item) : Bool :=
  p.inner.eval item

/-- `impl fmt::Display for NamePredicate`: `write!(f, "{}", self.name)`
(src/name.rs lines 38-45). -/
def NamePredicate.describe {Item : Type} (p : NamePredicate Item) : String :=
  p.name

/-- `PredicateNameExt::name(self, name)` (src/name.rs lines 55-63). -/
def Pred.name {Item : Type} (p : Pred Item) (label : String) : NamePredicate Item :=
  ⟨p, label⟩

/-! ## str/basics.rs — string leaf predicates

Models of the standard-library string primitives the leaf predicates call. -/

/-- Model of Rust `str::contains(&pattern)` for a string pattern: the pattern
occurs as a contiguous substring.  (For the empty string receiver, Rust
reports `true` exactly when the pattern is empty.) -/
def strContains (pattern : Str) : Str → Bool
  | [] => pattern.isEmpty
  | c :: rest => pattern.isPrefixOf (c :: rest) || strContains pattern rest

/-- Fuel-driven scanner behind `strMatchesCount`: at each position, if the
(nonempty) pattern occurs there, count one match and resume after the matched
text; otherwise advance one character.  Fuel at least the length of the
scanned string is always sufficient, since each step consumes at least one
character. -/
def strMatchesCountFuel (pattern : Str) : Nat → Str → Nat
  | 0, _ => 0
  | _ + 1, [] => 0
  | fuel + 1, c :: rest =>
    if pattern.isPrefixOf (c :: rest) then
      1 + strMatchesCountFuel pattern fuel (rest.drop (pattern.length - 1))
    else
      strMatchesCountFuel pattern fuel rest

/-- Model of Rust `str::matches(&pattern).count()` for a string pattern:
the number of non-overlapping occurrences found scanning left to right,
consuming matched text.  For the empty pattern Rust's searcher yields a
match at every character boundary, i.e. `s.len() + 1` matches (in chars). -/
def strMatchesCount (pattern s : Str) : Nat :=
  if pattern.isEmpty then s.length + 1
  else strMatchesCountFuel pattern s.length s

/-- `IsEmptyPredicate` (src/str/basics.rs): no parameters. -/
structure IsEmptyPredicate where

/-- `IsEmptyPredicate::eval`: `variable.is_empty()` (src/str/basics.rs lines 19-23). -/
def IsEmptyPredicate.eval (_ : IsEmptyPredicate) (v : Str) : Bool :=
  v.isEmpty

/-- `impl fmt::Display for IsEmptyPredicate`: `write!(f, "var.is_empty()")`
(src/str/basics.rs lines 25-29). -/
def IsEmptyPredicate.describe (_ : IsEmptyPredicate) : String :=
  "var.is_empty()"

/-- `predicates::str::is_empty()` (src/str/basics.rs lines 41-43). -/
def is_empty : IsEmptyPredicate :=
  {}

/-- A hexadecimal digit character (lowercase), as Rust's `{:x}` uses. -/
def hexDigitChar (n : Nat) : Char :=
  if n < 10 then Char.ofNat (48 + n) else Char.ofNat (87 + n % 16)

/-- Lowercase hexadecimal digits of `n`, most significant first (fuel-driven;
`fuel = n` suffices since `n < 16 ^ n` for `n > 0`). -/
def hexDigitsAux : Nat → Nat → List Char → List Char
  | 0, _, acc => acc
  | fuel + 1, n, acc =>
    if n = 0 then acc else hexDigitsAux fuel (n / 16) (hexDigitChar (n % 16) :: acc)

/-- Lowercase hexadecimal rendering of `n`, as in Rust's `\u{...}` escapes. -/
def hexDigits (n : Nat) : List Char :=
  if n = 0 then ['0'] else hexDigitsAux n n []

/-- Model of `char::escape_debug` as used by the `Debug` (`{:?}`) rendering of
strings: named escapes for NUL, tab, carriage return, newline, backslash and
double quote; `\u{...}` escapes for the other control characters; all other
characters unchanged.  (Rust additionally `\u{...}`-escapes certain
non-printable non-control code points; the model is exact on ASCII and on
ordinary printable text, which is all the descriptions exercise.) -/
def escapeDebugChar (c : Char) : List Char :=
  if c = Char.ofNat 0 then ['\\', '0']
  else if c = '\t' then ['\\', 't']
  else if c = '\r' then ['\\', 'r']
  else if c = '\n' then ['\\', 'n']
  else if c = '\\' then ['\\', '\\']
  else if c = '"' then ['\\', '"']
  else if c.toNat < 0x20 ∨ (0x7F ≤ c.toNat ∧ c.toNat ≤ 0x9F) then
    '\\' :: 'u' :: '{' :: (hexDigits c.toNat ++ ['}'])
  else [c]

/-- Model of Rust's `{:?}` (Debug) rendering of a string: the escaped
characters surrounded by double quotes. -/
def rustDebugStr (s : Str) : String :=
  String.mk ('"' :: (s.flatMap escapeDebugChar ++ ['"']))

/-- `StartsWithPredicate` (src/str/basics.rs): holds the pattern. -/
structure StartsWithPredicate where
  pattern : Str

/-- `StartsWithPredicate::eval`: `variable.starts_with(&self.pattern)`
(src/str/basics.rs lines 54-58). -/
def StartsWithPredicate.eval (p : StartsWithPredicate) (v : Str) : Bool :=
  p.pattern.isPrefixOf v

/-- `impl fmt::Display for StartsWithPredicate`:
`write!(f, "var.starts_with({:?})", self.pattern)` (src/str/basics.rs lines 60-64). -/
def StartsWithPredicate.describe (p : StartsWithPredicate) : String :=
  "var.starts_with(" ++ rustDebugStr p.pattern ++ ")"

/-- `predicates::str::starts_with(pattern)` (src/str/basics.rs lines 76-83). -/
def starts_with (pattern : Str) : StartsWithPredicate :=
  ⟨pattern⟩

/-- `EndsWithPredicate` (src/str/basics.rs): holds the pattern. -/
structure EndsWithPredicate where
  pattern : Str

/-- `EndsWithPredicate::eval`: `variable.ends_with(&self.pattern)`
(src/str/basics.rs lines 94-98). -/
def EndsWithPredicate.eval (p : EndsWithPredicate) (v : Str) : Bool :=
  p.pattern.isSuffixOf v

/-- `impl fmt::Display for EndsWithPredicate`:
`write!(f, "var.ends_with({:?})", self.pattern)` (src/str/basics.rs lines 100-104). -/
def EndsWithPredicate.describe (p : EndsWithPredicate) : String :=
  "var.ends_with(" ++ rustDebugStr p.pattern ++ ")"

/-- `predicates::str::ends_with(pattern)` (src/str/basics.rs lines 116-123). -/
def ends_with (pattern : Str) : EndsWithPredicate :=
  ⟨pattern⟩

/-- `ContainsPredicate` (src/str/basics.rs): holds the pattern. -/
structure ContainsPredicate where
  pattern : Str

/-- `ContainsPredicate::eval`: `variable.contains(&self.pattern)`
(src/str/basics.rs lines 154-158). -/
def ContainsPredicate.eval (p : ContainsPredicate) (v : Str) : Bool :=
  strContains p.pattern v

/-- `impl fmt::Display for ContainsPredicate`:
`write!(f, "var.contains({:?})", self.pattern)` (src/str/basics.rs lines 160-164). -/
def ContainsPredicate.describe (p : ContainsPredicate) : String :=
  "var.contains(" ++ rustDebugStr p.pattern ++ ")"

/-- `predicates::str::contains(pattern)` (src/str/basics.rs lines 188-195). -/
def contains (pattern : Str) : ContainsPredicate :=
  ⟨pattern⟩

/-- `MatchesPredicate` (src/str/basics.rs): pattern plus exact match count. -/
structure MatchesPredicate where
  pattern : Str
  count : Nat

/-- `ContainsPredicate::count(self, count)` (src/str/basics.rs lines 130-147). -/
def ContainsPredicate.count (p : ContainsPredicate) (count : Nat) : MatchesPredicate :=
  ⟨p.pattern, count⟩

/-- `MatchesPredicate::eval`:
`variable.matches(&self.pattern).count() == self.count`
(src/str/basics.rs lines 175-179). -/
def MatchesPredicate.eval (p : MatchesPredicate) (v : Str) : Bool :=
  strMatchesCount p.pattern v == p.count

/-- `impl fmt::Display for MatchesPredicate`:
`write!(f, "var.contains({:?}, {})", self.pattern, self.count)`
(src/str/basics.rs lines 181-185). -/
def MatchesPredicate.describe (p : MatchesPredicate) : String :=
  "var.contains(" ++ rustDebugStr p.pattern ++ ", " ++ toString p.count ++ ")"

/-! ## str/adapters.rs — string adapters -/

/-- Model of Rust `char::is_whitespace`: the Unicode `White_Space` property
(U+0009..U+000D, U+0020, U+0085, U+00A0, U+1680, U+2000..U+200A, U+2028,
U+2029, U+202F, U+205F, U+3000). -/
def rustIsWhitespace (c : Char) : Bool :=
  decide ((0x09 ≤ c.toNat ∧ c.toNat ≤ 0x0D) ∨ c.toNat = 0x20 ∨ c.toNat = 0x85 ∨
    c.toNat = 0xA0 ∨ c.toNat = 0x1680 ∨ (0x2000 ≤ c.toNat ∧ c.toNat ≤ 0x200A) ∨
    c.toNat = 0x2028 ∨ c.toNat = 0x2029 ∨ c.toNat = 0x202F ∨ c.toNat = 0x205F ∨
    c.toNat = 0x3000)

/-- Model of Rust `str::trim_start`: strip leading whitespace. -/
def rustTrimStart (s : Str) : Str :=
  s.dropWhile rustIsWhitespace

/-- Model of Rust `str::trim_end`: strip trailing whitespace. -/
def rustTrimEnd (s : Str) : Str :=
  (s.reverse.dropWhile rustIsWhitespace).reverse

/-- Model of Rust `str::trim`: strip leading and trailing whitespace. -/
def rustTrim (s : Str) : Str :=
  rustTrimEnd (rustTrimStart s)

/-- `TrimPredicate<P>` (src/str/adapters.rs): one inner text predicate. -/
structure TrimPredicate where
  p : Pred Str

/-- `TrimPredicate::eval`: `self.p.eval(variable.trim())`
(src/str/adapters.rs lines 18-25). -/
def TrimPredicate.eval (t : TrimPredicate) (v : Str) : Bool :=
  t.p.eval (rustTrim v)

/-- `impl fmt::Display for TrimPredicate`: `write!(f, "{}", self.p)`
(src/str/adapters.rs lines 27-34). -/
def TrimPredicate.describe (t : TrimPredicate) : String :=
  t.p.describe

/-- `PredicateStrExt::trim(self)` (src/str/adapters.rs lines 92-94). -/
def Pred.trim (p : Pred Str) : TrimPredicate :=
  ⟨p⟩

/-- One step of the model of Rust `str::from_utf8` (the byte-level validation
`run_utf8_validation` of `core::str`): decode one unicode scalar value from
the front of the byte sequence.  The branch structure mirrors the table:
ASCII bytes stand alone; `0xC2..=0xDF` open a 2-byte sequence; `0xE0..=0xEF`
open a 3-byte sequence whose second byte's admissible range depends on the
lead byte (`0xE0` excludes overlong forms, `0xED` excludes surrogates);
`0xF0..=0xF4` open a 4-byte sequence (`0xF0` excludes overlong forms, `0xF4`
values past U+10FFFF); every other lead byte, truncated sequence, or
out-of-range continuation byte (outside `0x80..=0xBF`) is rejected. -/
def utf8DecodeChar : List Nat → Option (Char × List Nat)
  | [] => none
  | b0 :: bs =>
    if b0 ≤ 0x7F then some (Char.ofNat b0, bs)
    else if 0xC2 ≤ b0 ∧ b0 ≤ 0xDF then
      match bs with
      | b1 :: bs1 =>
        if 0x80 ≤ b1 ∧ b1 ≤ 0xBF then
          some (Char.ofNat ((b0 - 0xC0) * 0x40 + (b1 - 0x80)), bs1)
        else none
      | [] => none
    else if 0xE0 ≤ b0 ∧ b0 ≤ 0xEF then
      match bs with
      | b1 :: b2 :: bs2 =>
        if ((b0 = 0xE0 ∧ 0xA0 ≤ b1 ∧ b1 ≤ 0xBF) ∨
            (0xE1 ≤ b0 ∧ b0 ≤ 0xEC ∧ 0x80 ≤ b1 ∧ b1 ≤ 0xBF) ∨
            (b0 = 0xED ∧ 0x80 ≤ b1 ∧ b1 ≤ 0x9F) ∨
            (0xEE ≤ b0 ∧ b0 ≤ 0xEF ∧ 0x80 ≤ b1 ∧ b1 ≤ 0xBF)) ∧
            (0x80 ≤ b2 ∧ b2 ≤ 0xBF) then
          some (Char.ofNat ((b0 - 0xE0) * 0x1000 + (b1 - 0x80) * 0x40 + (b2 - 0x80)),
            bs2)
        else none
      | _ => none
    else if 0xF0 ≤ b0 ∧ b0 ≤ 0xF4 then
      match bs with
      | b1 :: b2 :: b3 :: bs3 =>
        if ((b0 = 0xF0 ∧ 0x90 ≤ b1 ∧ b1 ≤ 0xBF) ∨
            (0xF1 ≤ b0 ∧ b0 ≤ 0xF3 ∧ 0x80 ≤ b1 ∧ b1 ≤ 0xBF) ∨
            (b0 = 0xF4 ∧ 0x80 ≤ b1 ∧ b1 ≤ 0x8F)) ∧
            (0x80 ≤ b2 ∧ b2 ≤ 0xBF) ∧ (0x80 ≤ b3 ∧ b3 ≤ 0xBF) then
          some (Char.ofNat ((b0 - 0xF0) * 0x40000 + (b1 - 0x80) * 0x1000 +
            (b2 - 0x80) * 0x40 + (b3 - 0x80)), bs3)
        else none
      | _ => none
    else none

/-- Iterate `utf8DecodeChar` over the whole byte list.  The fuel argument only
serves structural recursion: each successful step consumes at least one byte
(`utf8DecodeChar_rest_length`), so fuel `bs.length` is always sufficient and
the out-of-fuel branch is unreachable from `utf8Decode`
(`utf8DecodeFuel_fuel_irrelevant`). -/
def utf8DecodeFuel : Nat → List Nat → Option (List Char)
  | _, [] => some []
  | 0, _ :: _ => none
  | fuel + 1, b0 :: bs =>
    match utf8DecodeChar (b0 :: bs) with
    | some (c, rest) => (utf8DecodeFuel fuel rest).map (c :: ·)
    | none => none

/-- Model of Rust `str::from_utf8`: decode the whole byte sequence, or reject
it if any step fails. -/
def utf8Decode (bs : List Nat) : Option (List Char) :=
  utf8DecodeFuel bs.length bs

/-- Model of Rust `char::encode_utf8`: the UTF-8 bytes of one scalar value. -/
def utf8EncodeChar (c : Char) : List Nat :=
  let v := c.toNat
  if v ≤ 0x7F then [v]
  else if v ≤ 0x7FF then [0xC0 + v / 0x40, 0x80 + v % 0x40]
  else if v ≤ 0xFFFF then
    [0xE0 + v / 0x1000, 0x80 + (v / 0x40) % 0x40, 0x80 + v % 0x40]
  else
    [0xF0 + v / 0x40000, 0x80 + (v / 0x1000) % 0x40, 0x80 + (v / 0x40) % 0x40,
      0x80 + v % 0x40]

/-- The UTF-8 encoding of a string (model of `str::as_bytes`). -/
def utf8Encode (s : Str) : List Nat :=
  s.flatMap utf8EncodeChar

/-- Model of `OsStr::to_str` (Unix: an `OsStr` is an arbitrary byte sequence
and `to_str` succeeds exactly when those bytes are valid UTF-8). -/
def osStrToStr (v : List Nat) : Option Str :=
  utf8Decode v

/-- `Utf8Predicate<P>` (src/str/adapters.rs): one inner text predicate. -/
structure Utf8Predicate where
  p : Pred Str

/-- `impl Predicate<&[u8]> for Utf8Predicate`:
`str::from_utf8(variable).map(|s| self.p.eval(s)).unwrap_or(false)`
(src/str/adapters.rs lines 56-65). -/
def Utf8Predicate.evalBytes (u : Utf8Predicate) (v : List Nat) : Bool :=
  ((utf8Decode v).map (fun s => u.p.eval s)).getD false

/-- `impl Predicate<&ffi::OsStr> for Utf8Predicate`:
`variable.to_str().map(|s| self.p.eval(s)).unwrap_or(false)`
(src/str/adapters.rs lines 47-54). -/
def Utf8Predicate.evalOsStr (u : Utf8Predicate) (v : List Nat) : Bool :=
  ((osStrToStr v).map (fun s => u.p.eval s)).getD false

/-- `impl fmt::Display for Utf8Predicate`: `write!(f, "{}", self.p)`
(src/str/adapters.rs lines 67-74). -/
def Utf8Predicate.describe (u : Utf8Predicate) : String :=
  u.p.describe

/-- `PredicateStrExt::from_utf8(self)` (src/str/adapters.rs lines 110-112). -/
def Pred.from_utf8 (p : Pred Str) : Utf8Predicate :=
  ⟨p⟩

/-! ## Specification-side definitions

A second, independently structured definition of the non-overlapping match
count, used to compare the source's behavior against the spec's words. -/

/-- Follows the spec's words rather than the source: scan positions of `s`
left to right starting at `i`; at a position where the pattern occurs, count
one occurrence and resume after the matched text; otherwise advance one
character.  Fuel `s.length` is always sufficient for nonempty patterns. -/
def specScanFrom (pattern s : Str) : Nat → Nat → Nat
  | _, 0 => 0
  | i, fuel + 1 =>
    if s.length ≤ i then 0
    else if (s.drop i).take pattern.length = pattern then
      1 + specScanFrom pattern s (i + pattern.length) fuel
    else
      specScanFrom pattern s (i + 1) fuel

/-- The spec-side number of non-overlapping occurrences of `pattern` in `s`,
scanned left to right with matched text consumed. -/
def specNonOverlapCount (pattern s : Str) : Nat :=
  specScanFrom pattern s 0 s.length

/-! ## Helper lemmas -/

/-- `strContains` decides substring occurrence. -/
theorem strContains_occurs_iff (pattern s : Str) :
    strContains pattern s = true ↔ pattern <:+: s := by
  induction s with
  | nil => simp [strContains, List.isEmpty_iff, List.infix_nil]
  | cons c t ih =>
    simp [strContains, List.infix_cons_iff, List.isPrefixOf_iff_prefix, ih]

/-- The source's fuel-driven scan agrees with the spec-side index scan. -/
theorem specScanFrom_eq_strMatchesCountFuel (pattern : Str) (hp : pattern ≠ []) :
    ∀ (fuel : Nat) (s : Str) (i : Nat), s.length - i ≤ fuel →
      specScanFrom pattern s i fuel = strMatchesCountFuel pattern fuel (s.drop i) := by
  have hlen : 1 ≤ pattern.length := List.length_pos.mpr hp
  intro fuel
  induction fuel with
  | zero =>
    intro s i h
    have hnil : s.drop i = [] := List.drop_eq_nil_of_le (by omega)
    simp [specScanFrom, hnil, strMatchesCountFuel]
  | succ fuel ih =>
    intro s i h
    by_cases hi : s.length ≤ i
    · have hnil : s.drop i = [] := List.drop_eq_nil_of_le hi
      simp [specScanFrom, hnil, strMatchesCountFuel, hi]
    · have hlt : i < s.length := by omega
      have hdrop : s.drop i = s[i] :: s.drop (i + 1) := List.drop_eq_getElem_cons hlt
      by_cases hm : (s.drop i).take pattern.length = pattern
      · have hpre : pattern.isPrefixOf (s.drop i) = true := by
          rw [List.isPrefixOf_iff_prefix, List.prefix_iff_eq_take]
          exact hm.symm
        rw [hdrop] at hpre
        have hidx : i + 1 + (pattern.length - 1) = i + pattern.length := by omega
        rw [specScanFrom, if_neg (by omega), if_pos hm, hdrop, strMatchesCountFuel,
          if_pos hpre, List.drop_drop, hidx,
          ih s (i + pattern.length) (by omega)]
      · have hpre : ¬ pattern.isPrefixOf (s.drop i) = true := by
          rw [List.isPrefixOf_iff_prefix, List.prefix_iff_eq_take]
          exact fun hx => hm hx.symm
        rw [hdrop] at hpre
        rw [specScanFrom, if_neg (by omega), if_neg hm, hdrop, strMatchesCountFuel,
          if_neg hpre, ih s (i + 1) (by omega)]

/-- For nonempty patterns, the source's match count is exactly the spec-side
non-overlapping count. -/
theorem strMatchesCount_eq_specNonOverlapCount (pattern s : Str) (hp : pattern ≠ []) :
    strMatchesCount pattern s = specNonOverlapCount pattern s := by
  rw [strMatchesCount, if_neg (by simp [List.isEmpty_iff, hp])]
  have h := specScanFrom_eq_strMatchesCountFuel pattern hp s.length s 0 (by omega)
  rw [List.drop_zero] at h
  rw [specNonOverlapCount, h]

/-- For nonempty patterns, a zero match count means the pattern occurs nowhere. -/
theorem strMatchesCountFuel_zero_iff (pattern : Str) (hp : pattern ≠ []) :
    ∀ (fuel : Nat) (s : Str), s.length ≤ fuel →
      (strMatchesCountFuel pattern fuel s = 0 ↔ strContains pattern s = false) := by
  intro fuel
  induction fuel with
  | zero =>
    intro s h
    have hnil : s = [] := by
      cases s with
      | nil => rfl
      | cons c t => simp at h
    subst hnil
    simp [strMatchesCountFuel, strContains, List.isEmpty_iff, hp]
  | succ fuel ih =>
    intro s h
    cases s with
    | nil => simp [strMatchesCountFuel, strContains, List.isEmpty_iff, hp]
    | cons c t =>
      by_cases hpre : pattern.isPrefixOf (c :: t) = true
      · simp [strMatchesCountFuel, hpre, strContains]
      · have hf : pattern.isPrefixOf (c :: t) = false := by
          simp only [Bool.not_eq_true] at hpre
          exact hpre
        have ht : t.length ≤ fuel := by simp at h; omega
        simp [strMatchesCountFuel, hf, strContains, ih t ht]

/-- The match count is zero exactly when the pattern does not occur at all
(this also covers the empty pattern, which always occurs and always has a
positive match count). -/
theorem strMatchesCount_zero_iff (pattern s : Str) :
    strMatchesCount pattern s = 0 ↔ strContains pattern s = false := by
  by_cases hp : pattern = []
  · subst hp
    rw [strMatchesCount, if_pos (by simp)]
    constructor
    · intro h
      omega
    · intro h
      exfalso
      cases s with
      | nil => simp [strContains] at h
      | cons c t =>
        simp [strContains, List.isPrefixOf_iff_prefix, List.nil_prefix] at h
  · rw [strMatchesCount, if_neg (by simp [List.isEmpty_iff, hp])]
    exact strMatchesCountFuel_zero_iff pattern hp s.length s (le_refl _)

/-! ## Claims -/

/-- The `is_empty` leaf predicate bundled with its description, as a `Pred`. -/
def isEmptyPred : Pred Str :=
  ⟨IsEmptyPredicate.eval is_empty, IsEmptyPredicate.describe is_empty⟩

/-- **C1** (counterexample): the boxed predicate's description does *not*
equal the inner predicate's description: boxing `is_empty()` describes as
`"BoxPredicate"`, while the inner predicate describes as
`"var.is_empty()"`. -/
theorem C1_box_describe_counterexample :
    ¬ ((BoxPredicate.new isEmptyPred).describe = isEmptyPred.describe) := by
  decide

/-- **C1** (amended): boxing is transparent for evaluation —
`BoxPredicate::new(p).eval(x) = p.eval(x)` for every predicate `p` and input
`x` — but the boxed predicate's description is the constant string
`"BoxPredicate"`, independent of the inner predicate, not the inner
predicate's own description. -/
theorem C1_box_eval_transparent {Item : Type} :
    (∀ (p : Pred Item) (x : Item), (BoxPredicate.new p).eval x = p.eval x)
    ∧ (∀ p : Pred Item, (BoxPredicate.new p).describe = "BoxPredicate") :=
  ⟨fun _ _ => rfl, fun _ => rfl⟩

/-- **C2**: `contains(pattern).count(n).eval(s)` is true iff `s` contains
exactly `n` non-overlapping occurrences of `pattern`, scanned left to right
with matched text consumed (formalized by the spec-side `specNonOverlapCount`
for nonempty patterns; for the empty pattern the platform primitive reports a
match at every character boundary, i.e. `s.length + 1` occurrences);
`count(0)` is true iff the pattern does not occur at all; and the documented
examples hold, including the non-overlapping `contains("aa").count(1)` on
`"aaa"`. -/
theorem C2_matches_count :
    (∀ (pattern s : Str) (n : Nat), pattern ≠ [] →
      (((contains pattern).count n).eval s = true ↔ specNonOverlapCount pattern s = n))
    ∧ (∀ (s : Str) (n : Nat),
      ((contains ([] : Str)).count n).eval s = true ↔ s.length + 1 = n)
    ∧ (∀ pattern s : Str,
      (((contains pattern).count 0).eval s = true ↔ (contains pattern).eval s = false))
    ∧ ((contains "Two".toList).count 2).eval "One Two Three Two One".toList = true
    ∧ ((contains "Two".toList).count 1).eval "One Two Three Two One".toList = false
    ∧ ((contains "aa".toList).count 1).eval "aaa".toList = true := by
  refine ⟨?_, ?_, ?_, by decide, by decide, by decide⟩
  · intro pattern s n hp
    show (strMatchesCount pattern s == n) = true ↔ _
    rw [beq_iff_eq, strMatchesCount_eq_specNonOverlapCount pattern s hp]
  · intro s n
    show (strMatchesCount [] s == n) = true ↔ _
    rw [beq_iff_eq, strMatchesCount, if_pos (by simp)]
  · intro pattern s
    show (strMatchesCount pattern s == 0) = true ↔ strContains pattern s = false
    rw [beq_iff_eq]
    exact strMatchesCount_zero_iff pattern s

/-- **C2** (witness): the general equivalence instantiated at the nonempty
pattern `"ab"` on input `"xaby"` with `n = 1`. -/
theorem C2_matches_count_witness :
    ("ab".toList : Str) ≠ [] ∧
      (((contains "ab".toList).count 1).eval "xaby".toList = true ↔
        specNonOverlapCount "ab".toList "xaby".toList = 1) :=
  ⟨by decide, C2_matches_count.1 "ab".toList "xaby".toList 1 (by decide)⟩

/-- **C3**: the logical combinators compute exactly the boolean functions of
their children: `and(p,p2).eval(x) = p.eval(x) && p2.eval(x)`,
`or(p,p2).eval(x) = p.eval(x) || p2.eval(x)`, and
`not(p).eval(x) = !p.eval(x)`. -/
theorem C3_boolean_combinators {Item : Type} (p p2 : Pred Item) (x : Item) :
    (AndPredicate.new p p2).eval x = (p.eval x && p2.eval x)
    ∧ (OrPredicate.new p p2).eval x = (p.eval x || p2.eval x)
    ∧ (NotPredicate.new p).eval x = !p.eval x :=
  ⟨rfl, rfl, rfl⟩

/-- **C4**: `name(p, L)` evaluates exactly as `p` does, and its description is
exactly the label `L`, for every predicate `p`, label `L` and input `x` — in
particular the inner description is dropped entirely (e.g. naming the
`is_empty()` predicate, whose own description is `"var.is_empty()"`, yields
description `"L"`). -/
theorem C4_name_wrapper {Item : Type} :
    (∀ (p : Pred Item) (L : String) (x : Item), (p.name L).eval x = p.eval x)
    ∧ (∀ (p : Pred Item) (L : String), (p.name L).describe = L)
    ∧ (isEmptyPred.name "L").describe = "L" :=
  ⟨fun _ _ _ => rfl, fun _ _ => rfl, rfl⟩

/-- **C7**: the empty pattern matches trivially: `starts_with("")`,
`ends_with("")` and `contains("")` evaluate to true on every string. -/
theorem C7_empty_pattern_trivial (s : Str) :
    (starts_with []).eval s = true
    ∧ (ends_with []).eval s = true
    ∧ (contains []).eval s = true := by
  refine ⟨?_, ?_, ?_⟩
  · show List.isPrefixOf [] s = true
    rw [List.isPrefixOf_iff_prefix]
    exact List.nil_prefix
  · show List.isSuffixOf [] s = true
    rw [List.isSuffixOf_iff_suffix]
    exact List.nil_suffix
  · show strContains [] s = true
    rw [strContains_occurs_iff]
    exact ⟨[], s, rfl⟩

/-- **C8**: AND and OR short-circuit left to right: in the instrumented
semantics (which embeds Rust's lazy `&&`/`||` in the bodies of
`AndPredicate::eval` and `OrPredicate::eval`), when `a` evaluates to false
the AND result carries exactly `a`'s invocation trace — `b` is never
invoked — and symmetrically for OR when `a` evaluates to true. -/
theorem C8_short_circuit {Item : Type} (x : Item) :
    (∀ a b : TPred Item, (a x).2 = false → andEvalTrace a b x = ((a x).1, false))
    ∧ (∀ a b : TPred Item, (a x).2 = true → orEvalTrace a b x = ((a x).1, true)) := by
  constructor
  · intro a b h
    simp [andEvalTrace, h]
  · intro a b h
    simp [orEvalTrace, h]

/-- **C8** (witness): with a first operand that returns false (resp. true)
and a second operand whose invocation would be visible in the trace, the
trace contains only the first operand's invocation. -/
theorem C8_short_circuit_witness :
    (((fun _ => (["a"], false) : TPred Nat) 0).2 = false
      ∧ andEvalTrace (fun _ => (["a"], false)) (fun _ => (["b"], true)) 0 =
        (((fun _ => (["a"], false) : TPred Nat) 0).1, false))
    ∧ (((fun _ => (["a"], true) : TPred Nat) 0).2 = true
      ∧ orEvalTrace (fun _ => (["a"], true)) (fun _ => (["b"], false)) 0 =
        (((fun _ => (["a"], true) : TPred Nat) 0).1, true)) :=
  ⟨⟨rfl, (C8_short_circuit 0).1 _ _ rfl⟩, ⟨rfl, (C8_short_circuit 0).2 _ _ rfl⟩⟩

/-- **C9**: each string leaf predicate's description follows the spec table's
format with its constructed parameters substituted in (string parameters are
rendered with Rust's `{:?}` quoting, modelled by `rustDebugStr`):
`var.is_empty()`, `var.starts_with(pattern)`, `var.ends_with(pattern)`,
`var.contains(pattern)` and `var.contains(pattern, n)` — checked concretely
on the patterns of the documented examples. -/
theorem C9_leaf_descriptions :
    (is_empty.describe = "var.is_empty()")
    ∧ (∀ pat : Str, (starts_with pat).describe =
        "var.starts_with(" ++ rustDebugStr pat ++ ")")
    ∧ (∀ pat : Str, (ends_with pat).describe =
        "var.ends_with(" ++ rustDebugStr pat ++ ")")
    ∧ (∀ pat : Str, (contains pat).describe =
        "var.contains(" ++ rustDebugStr pat ++ ")")
    ∧ (∀ (pat : Str) (n : Nat), ((contains pat).count n).describe =
        "var.contains(" ++ rustDebugStr pat ++ ", " ++ toString n ++ ")")
    ∧ (starts_with "Hello".toList).describe = "var.starts_with(\"Hello\")"
    ∧ ((contains "Two".toList).count 2).describe = "var.contains(\"Two\", 2)" :=
  ⟨rfl, fun _ => rfl, fun _ => rfl, fun _ => rfl, fun _ _ => rfl,
    by decide, by decide⟩

/-- **C10**: the trim and encoding adapters are invisible in diagnostics: for
every inner predicate, `p.trim()` and `p.from_utf8()` describe exactly as `p`
itself does — e.g. `is_empty().trim()` still describes as
`"var.is_empty()"`. -/
theorem C10_adapters_invisible :
    (∀ t : TrimPredicate, t.describe = t.p.describe)
    ∧ (∀ u : Utf8Predicate, u.describe = u.p.describe)
    ∧ (∀ p : Pred Str, (p.trim).describe = p.describe ∧ (p.from_utf8).describe = p.describe)
    ∧ (isEmptyPred.trim).describe = "var.is_empty()" :=
  ⟨fun _ => rfl, fun _ => rfl, fun _ => ⟨rfl, rfl⟩, rfl⟩

/-! ### Trim characterization -/

/-- Every list splits as its whitespace-trimmed core surrounded by whitespace:
the reversed-dropWhile decomposition. -/
theorem eq_trimEnd_append (l : Str) :
    l = rustTrimEnd l ++ (l.reverse.takeWhile rustIsWhitespace).reverse := by
  rw [rustTrimEnd, ← List.reverse_append, List.takeWhile_append_dropWhile,
    List.reverse_reverse]

/-- `rustTrim` decomposition: the input is whitespace, then the trimmed core,
then whitespace. -/
theorem rustTrim_decomposition (s : Str) :
    ∃ pre post, s = pre ++ rustTrim s ++ post
      ∧ (∀ c ∈ pre, rustIsWhitespace c = true)
      ∧ (∀ c ∈ post, rustIsWhitespace c = true) := by
  refine ⟨s.takeWhile rustIsWhitespace,
    ((rustTrimStart s).reverse.takeWhile rustIsWhitespace).reverse, ?_, ?_, ?_⟩
  · conv_lhs => rw [← List.takeWhile_append_dropWhile rustIsWhitespace s]
    rw [List.append_assoc]
    congr 1
    exact eq_trimEnd_append (rustTrimStart s)
  · intro c hc
    exact List.mem_takeWhile_imp hc
  · intro c hc
    rw [List.mem_reverse] at hc
    exact List.mem_takeWhile_imp hc

/-- The head of a `dropWhile` does not satisfy the dropped property. -/
theorem head_dropWhile_false {α : Type} (p : α → Bool) (l : List α) (c : α)
    (h : (l.dropWhile p).head? = some c) : p c = false := by
  have hx := List.head?_dropWhile_not p l
  rw [h] at hx
  exact hx

/-- The trimmed core is a prefix of the start-trimmed list. -/
theorem rustTrim_prefix_trimStart (s : Str) :
    rustTrim s <+: rustTrimStart s := by
  rw [rustTrim, rustTrimEnd]
  conv_rhs => rw [← List.reverse_reverse (rustTrimStart s)]
  rw [List.reverse_prefix]
  exact List.dropWhile_suffix rustIsWhitespace

/-- The first character of the trimmed string is not whitespace. -/
theorem rustTrim_head_not_ws (s : Str) (c : Char)
    (h : (rustTrim s).head? = some c) : rustIsWhitespace c = false := by
  obtain ⟨r, hr⟩ := rustTrim_prefix_trimStart s
  cases htrim : rustTrim s with
  | nil => rw [htrim] at h; simp at h
  | cons d t =>
    rw [htrim] at h hr
    simp only [List.head?_cons, Option.some.injEq] at h
    have hx : ((s.dropWhile rustIsWhitespace).head? = some d) := by
      rw [rustTrimStart] at hr
      rw [← hr]
      rfl
    rw [← h]
    exact head_dropWhile_false rustIsWhitespace s d hx

/-- The last character of the trimmed string is not whitespace. -/
theorem rustTrim_getLast_not_ws (s : Str) (c : Char)
    (h : (rustTrim s).getLast? = some c) : rustIsWhitespace c = false := by
  rw [rustTrim, rustTrimEnd, List.getLast?_reverse] at h
  exact head_dropWhile_false rustIsWhitespace (rustTrimStart s).reverse c h

/-- **C6**: the trim adapter evaluates the inner predicate on the input with
leading and trailing whitespace stripped — the inner predicate never observes
untrimmed input; `rustTrim` indeed strips exactly the whitespace margins
(decomposition plus non-whitespace endpoints); and the documented examples
hold: `is_empty().trim()` accepts `"   "` and rejects `"  x "`. -/
theorem C6_trim_adapter :
    (∀ (t : TrimPredicate) (s : Str), t.eval s = t.p.eval (rustTrim s))
    ∧ (∀ s : Str, ∃ pre post, s = pre ++ rustTrim s ++ post
        ∧ (∀ c ∈ pre, rustIsWhitespace c = true)
        ∧ (∀ c ∈ post, rustIsWhitespace c = true))
    ∧ (∀ (s : Str) (c : Char), (rustTrim s).head? = some c →
        rustIsWhitespace c = false)
    ∧ (∀ (s : Str) (c : Char), (rustTrim s).getLast? = some c →
        rustIsWhitespace c = false)
    ∧ (isEmptyPred.trim).eval "   ".toList = true
    ∧ (isEmptyPred.trim).eval "  x ".toList = false :=
  ⟨fun _ _ => rfl, rustTrim_decomposition, rustTrim_head_not_ws,
    rustTrim_getLast_not_ws, by decide, by decide⟩

/-- **C6** (witness): the endpoint conjuncts instantiated on `" a "`, whose
trimmed core is `"a"`. -/
theorem C6_trim_adapter_witness :
    ((rustTrim " a ".toList).head? = some 'a' ∧ rustIsWhitespace 'a' = false)
    ∧ ((rustTrim " a ".toList).getLast? = some 'a' ∧ rustIsWhitespace 'a' = false) :=
  ⟨⟨by decide, C6_trim_adapter.2.2.1 " a ".toList 'a' (by decide)⟩,
    ⟨by decide, C6_trim_adapter.2.2.2.1 " a ".toList 'a' (by decide)⟩⟩

/-! ### UTF-8 round-trip -/

set_option maxRecDepth 4000

/-- A successful decode step consumes at least one byte. -/
theorem utf8DecodeChar_rest_length (bs : List Nat) (c : Char) (rest : List Nat)
    (h : utf8DecodeChar bs = some (c, rest)) : rest.length < bs.length := by
  match bs with
  | [] => simp [utf8DecodeChar] at h
  | b0 :: bs =>
    simp only [utf8DecodeChar] at h
    repeat' split at h
    all_goals try (exact Option.noConfusion h)
    all_goals
      rw [Option.some.injEq, Prod.mk.injEq] at h
      obtain ⟨h1, h2⟩ := h
      subst h2
      simp
    all_goals omega

/-- Fuel does not matter once it covers the list length. -/
theorem utf8DecodeFuel_fuel_irrelevant :
    ∀ (fuel fuel' : Nat) (bs : List Nat), bs.length ≤ fuel → bs.length ≤ fuel' →
      utf8DecodeFuel fuel bs = utf8DecodeFuel fuel' bs := by
  intro fuel
  induction fuel with
  | zero =>
    intro fuel' bs h h'
    have : bs = [] := by
      cases bs with
      | nil => rfl
      | cons x t => simp at h
    subst this
    cases fuel' <;> rfl
  | succ fuel ih =>
    intro fuel' bs h h'
    cases bs with
    | nil => cases fuel' <;> rfl
    | cons b0 t =>
      cases fuel' with
      | zero => simp at h'
      | succ fuel'' =>
        simp only [utf8DecodeFuel]
        cases hstep : utf8DecodeChar (b0 :: t) with
        | none => rfl
        | some cr =>
          obtain ⟨c, rest⟩ := cr
          have hlen := utf8DecodeChar_rest_length (b0 :: t) c rest hstep
          simp only [List.length_cons] at h h' hlen
          show (utf8DecodeFuel fuel rest).map (fun x => c :: x) =
            (utf8DecodeFuel fuel'' rest).map (fun x => c :: x)
          rw [ih fuel'' rest (by omega) (by omega)]

theorem utf8DecodeChar_ascii (b0 : Nat) (bs : List Nat) (h1 : b0 ≤ 0x7F) :
    utf8DecodeChar (b0 :: bs) = some (Char.ofNat b0, bs) := by
  simp only [utf8DecodeChar]
  rw [if_pos h1]

theorem utf8DecodeChar_two (b0 b1 : Nat) (bs : List Nat)
    (h2 : 0xC2 ≤ b0 ∧ b0 ≤ 0xDF) (h3 : 0x80 ≤ b1 ∧ b1 ≤ 0xBF) :
    utf8DecodeChar (b0 :: b1 :: bs) =
      some (Char.ofNat ((b0 - 0xC0) * 0x40 + (b1 - 0x80)), bs) := by
  simp only [utf8DecodeChar]
  rw [if_neg (by omega : ¬ b0 ≤ 0x7F), if_pos h2, if_pos h3]

theorem utf8DecodeChar_three (b0 b1 b2 : Nat) (bs : List Nat)
    (h2 : 0xE0 ≤ b0 ∧ b0 ≤ 0xEF)
    (h3 : ((b0 = 0xE0 ∧ 0xA0 ≤ b1 ∧ b1 ≤ 0xBF) ∨
        (0xE1 ≤ b0 ∧ b0 ≤ 0xEC ∧ 0x80 ≤ b1 ∧ b1 ≤ 0xBF) ∨
        (b0 = 0xED ∧ 0x80 ≤ b1 ∧ b1 ≤ 0x9F) ∨
        (0xEE ≤ b0 ∧ b0 ≤ 0xEF ∧ 0x80 ≤ b1 ∧ b1 ≤ 0xBF)) ∧
        (0x80 ≤ b2 ∧ b2 ≤ 0xBF)) :
    utf8DecodeChar (b0 :: b1 :: b2 :: bs) =
      some (Char.ofNat ((b0 - 0xE0) * 0x1000 + (b1 - 0x80) * 0x40 + (b2 - 0x80)), bs) := by
  simp only [utf8DecodeChar]
  rw [if_neg (by omega : ¬ b0 ≤ 0x7F), if_neg (by omega : ¬ (0xC2 ≤ b0 ∧ b0 ≤ 0xDF)),
    if_pos h2, if_pos h3]

theorem utf8DecodeChar_four (b0 b1 b2 b3 : Nat) (bs : List Nat)
    (h2 : 0xF0 ≤ b0 ∧ b0 ≤ 0xF4)
    (h3 : ((b0 = 0xF0 ∧ 0x90 ≤ b1 ∧ b1 ≤ 0xBF) ∨
        (0xF1 ≤ b0 ∧ b0 ≤ 0xF3 ∧ 0x80 ≤ b1 ∧ b1 ≤ 0xBF) ∨
        (b0 = 0xF4 ∧ 0x80 ≤ b1 ∧ b1 ≤ 0x8F)) ∧
        (0x80 ≤ b2 ∧ b2 ≤ 0xBF) ∧ (0x80 ≤ b3 ∧ b3 ≤ 0xBF)) :
    utf8DecodeChar (b0 :: b1 :: b2 :: b3 :: bs) =
      some (Char.ofNat ((b0 - 0xF0) * 0x40000 + (b1 - 0x80) * 0x1000 +
        (b2 - 0x80) * 0x40 + (b3 - 0x80)), bs) := by
  simp only [utf8DecodeChar]
  rw [if_neg (by omega : ¬ b0 ≤ 0x7F), if_neg (by omega : ¬ (0xC2 ≤ b0 ∧ b0 ≤ 0xDF)),
    if_neg (by omega : ¬ (0xE0 ≤ b0 ∧ b0 ≤ 0xEF)), if_pos h2, if_pos h3]

/-- Decoding undoes encoding, one character at a time. -/
theorem utf8DecodeChar_encodeChar (c : Char) (bs : List Nat) :
    utf8DecodeChar (utf8EncodeChar c ++ bs) = some (c, bs) := by
  have hval : c.toNat < 55296 ∨ (57343 < c.toNat ∧ c.toNat < 1114112) := c.valid
  by_cases hc1 : c.toNat ≤ 0x7F
  · have he : utf8EncodeChar c = [c.toNat] := by
      simp [utf8EncodeChar, hc1]
    rw [he, List.singleton_append, utf8DecodeChar_ascii c.toNat bs hc1, Char.ofNat_toNat]
  · by_cases hc2 : c.toNat ≤ 0x7FF
    · have he : utf8EncodeChar c = [0xC0 + c.toNat / 0x40, 0x80 + c.toNat % 0x40] := by
        simp [utf8EncodeChar, hc1, hc2]
      rw [he, List.cons_append, List.singleton_append,
        utf8DecodeChar_two _ _ bs (by omega) (by omega)]
      have hv : (0xC0 + c.toNat / 0x40 - 0xC0) * 0x40 + (0x80 + c.toNat % 0x40 - 0x80)
          = c.toNat := by omega
      rw [hv, Char.ofNat_toNat]
    · by_cases hc3 : c.toNat ≤ 0xFFFF
      · have he : utf8EncodeChar c = [0xE0 + c.toNat / 0x1000,
            0x80 + (c.toNat / 0x40) % 0x40, 0x80 + c.toNat % 0x40] := by
          simp [utf8EncodeChar, hc1, hc2, hc3]
        rw [he, List.cons_append, List.cons_append, List.singleton_append,
          utf8DecodeChar_three _ _ _ bs (by omega) (by omega)]
        have hv : (0xE0 + c.toNat / 0x1000 - 0xE0) * 0x1000 +
            (0x80 + (c.toNat / 0x40) % 0x40 - 0x80) * 0x40 +
            (0x80 + c.toNat % 0x40 - 0x80) = c.toNat := by omega
        rw [hv, Char.ofNat_toNat]
      · have he : utf8EncodeChar c = [0xF0 + c.toNat / 0x40000,
            0x80 + (c.toNat / 0x1000) % 0x40, 0x80 + (c.toNat / 0x40) % 0x40,
            0x80 + c.toNat % 0x40] := by
          simp [utf8EncodeChar, hc1, hc2, hc3]
        rw [he, List.cons_append, List.cons_append, List.cons_append,
          List.singleton_append,
          utf8DecodeChar_four _ _ _ _ bs (by omega) (by omega)]
        have hv : (0xF0 + c.toNat / 0x40000 - 0xF0) * 0x40000 +
            (0x80 + (c.toNat / 0x1000) % 0x40 - 0x80) * 0x1000 +
            (0x80 + (c.toNat / 0x40) % 0x40 - 0x80) * 0x40 +
            (0x80 + c.toNat % 0x40 - 0x80) = c.toNat := by omega
        rw [hv, Char.ofNat_toNat]

/-- The encoding of a character is nonempty. -/
theorem utf8EncodeChar_ne_nil (c : Char) : utf8EncodeChar c ≠ [] := by
  simp only [utf8EncodeChar]
  repeat' split
  all_goals simp

/-- With enough fuel, decoding undoes encoding. -/
theorem utf8DecodeFuel_encode :
    ∀ (s : Str) (fuel : Nat), (utf8Encode s).length ≤ fuel →
      utf8DecodeFuel fuel (utf8Encode s) = some s := by
  intro s
  induction s with
  | nil => intro fuel h; cases fuel <;> rfl
  | cons c t ih =>
    intro fuel h
    have hcons : ∃ b0 bs0, utf8EncodeChar c = b0 :: bs0 := by
      cases hE : utf8EncodeChar c with
      | nil => exact absurd hE (utf8EncodeChar_ne_nil c)
      | cons b0 bs0 => exact ⟨b0, bs0, rfl⟩
    obtain ⟨b0, bs0, hE⟩ := hcons
    have henc : utf8Encode (c :: t) = b0 :: (bs0 ++ utf8Encode t) := by
      rw [utf8Encode, List.flatMap_cons, hE, List.cons_append]
      rfl
    have hlen1 : (utf8EncodeChar c).length ≥ 1 := by
      rw [hE]; simp
    have hlen : (utf8Encode (c :: t)).length =
        (utf8EncodeChar c).length + (utf8Encode t).length := by
      rw [utf8Encode, List.flatMap_cons, List.length_append]
      rfl
    cases fuel with
    | zero =>
      rw [henc] at h
      simp at h
    | succ fuel =>
      rw [henc]
      simp only [utf8DecodeFuel]
      have hstep : utf8DecodeChar (b0 :: (bs0 ++ utf8Encode t)) = some (c, utf8Encode t) := by
        rw [← List.cons_append, ← hE]
        exact utf8DecodeChar_encodeChar c (utf8Encode t)
      rw [hstep]
      show (utf8DecodeFuel fuel (utf8Encode t)).map (fun x => c :: x) = some (c :: t)
      rw [ih fuel (by omega)]
      rfl

/-- Decoding undoes encoding: the model is a faithful round-trip. -/
theorem utf8Decode_utf8Encode (s : Str) : utf8Decode (utf8Encode s) = some s :=
  utf8DecodeFuel_encode s (utf8Encode s).length (le_refl _)

/-- **C5**: the encoding adapter delegates to the inner text predicate on the
decoded text when the input bytes (or platform string) are valid UTF-8 — in
particular on any encoded text it evaluates exactly as the inner predicate
does on that text — and evaluates to false when the input is not valid UTF-8,
for any inner predicate. -/
theorem C5_utf8_adapter :
    (∀ (u : Utf8Predicate) (v : List Nat) (s : Str), utf8Decode v = some s →
      u.evalBytes v = u.p.eval s)
    ∧ (∀ (u : Utf8Predicate) (v : List Nat), utf8Decode v = none →
      u.evalBytes v = false)
    ∧ (∀ (u : Utf8Predicate) (s : Str), u.evalBytes (utf8Encode s) = u.p.eval s)
    ∧ (∀ (u : Utf8Predicate) (v : List Nat) (s : Str), osStrToStr v = some s →
      u.evalOsStr v = u.p.eval s)
    ∧ (∀ (u : Utf8Predicate) (v : List Nat), osStrToStr v = none →
      u.evalOsStr v = false)
    ∧ (∀ (u : Utf8Predicate) (s : Str), u.evalOsStr (utf8Encode s) = u.p.eval s) := by
  refine ⟨?_, ?_, ?_, ?_, ?_, ?_⟩
  · intro u v s h
    rw [Utf8Predicate.evalBytes, h]
    rfl
  · intro u v h
    rw [Utf8Predicate.evalBytes, h]
    rfl
  · intro u s
    rw [Utf8Predicate.evalBytes, utf8Decode_utf8Encode]
    rfl
  · intro u v s h
    rw [Utf8Predicate.evalOsStr, h]
    rfl
  · intro u v h
    rw [Utf8Predicate.evalOsStr, h]
    rfl
  · intro u s
    rw [Utf8Predicate.evalOsStr, osStrToStr, utf8Decode_utf8Encode]
    rfl

/-- **C5** (witness): the valid-input conjunct instantiated on the encoding of
`"Hi"`, and the invalid-input conjuncts on the lone byte `0xFF`, with the
`is_empty()` predicate inside the adapter. -/
theorem C5_utf8_adapter_witness :
    (utf8Decode (utf8Encode "Hi".toList) = some "Hi".toList
      ∧ (isEmptyPred.from_utf8).evalBytes (utf8Encode "Hi".toList) =
        isEmptyPred.eval "Hi".toList)
    ∧ (utf8Decode [0xFF] = none ∧ (isEmptyPred.from_utf8).evalBytes [0xFF] = false)
    ∧ (osStrToStr [0xFF] = none ∧ (isEmptyPred.from_utf8).evalOsStr [0xFF] = false) :=
  ⟨⟨by decide, C5_utf8_adapter.1 isEmptyPred.from_utf8 (utf8Encode "Hi".toList)
      "Hi".toList (by decide)⟩,
    ⟨by decide, C5_utf8_adapter.2.1 isEmptyPred.from_utf8 [0xFF] (by decide)⟩,
    ⟨by decide, C5_utf8_adapter.2.2.2.2.1 isEmptyPred.from_utf8 [0xFF] (by decide)⟩⟩

end Predicates
